import Mathlib

/-!
Verification of the Algotest recommendation engine against its specification.
The definitions below are shallow embeddings of the Python sources under
`src/recommendation/` (`hybrid.py`, `hybrid_recommender.py`, `popularity.py`,
`collaborative.py`, `sentiment_analyzer.py`), `src/recommendation_service.py`
and `src/recommendation_algorithms/mood_based.py`.  Python floats are embedded
as rationals (`ℚ`), Python dicts (which preserve insertion order) as
association lists, and Python's stable `sorted(..., reverse=True)` as an
insertion sort that keeps the original order of equal keys.
-/

/-- A candidate produced by one strategy: item id and raw score
(the `{'id': ..., 'score': ...}` dicts flowing into the hybrid fusers). -/
structure Cand where
  id : String
  score : ℚ
deriving DecidableEq

/-- A Python dict from song id to accumulated fused score, in insertion order. -/
abbrev ScoreMap := List (String × ℚ)

/-- Lookup in a score dict: the value at the first matching key. -/
def getScore : ScoreMap → String → Option ℚ
  | [], _ => none
  | e :: m, i => if e.1 = i then some e.2 else getScore m i

/-- Python dict assignment `d[i] = v`: overwrite in place if present
(keeping the insertion position), else append. -/
def setEntry : ScoreMap → String → ℚ → ScoreMap
  | [], i, v => [(i, v)]
  | e :: m, i, v => if e.1 = i then (i, v) :: m else e :: setEntry m i v

/-- Python `d[i] += v` on a (default-0) dict: add to the entry if present,
else append `(i, v)`. -/
def addEntry : ScoreMap → String → ℚ → ScoreMap
  | [], i, v => [(i, v)]
  | e :: m, i, v => if e.1 = i then (e.1, e.2 + v) :: m else e :: addEntry m i v

/-- The keys of a score dict, in insertion order. -/
def scoreKeys (m : ScoreMap) : List String := m.map Prod.fst

/-- How many candidates of the list carry item id `i`. -/
def countId (l : List Cand) (i : String) : ℕ :=
  (l.filter (fun c => c.id = i)).length

/-- The sum of the raw scores the list assigns to item id `i`. -/
def sumId (l : List Cand) (i : String) : ℚ :=
  ((l.filter (fun c => c.id = i)).map Cand.score).sum

/-- The descending-by-score order used by both hybrid modules:
`sorted(..., key=score, reverse=True)`. -/
def scoreGE (a b : String × ℚ) : Prop := b.2 ≤ a.2

instance : DecidableRel scoreGE := fun a b => inferInstanceAs (Decidable (b.2 ≤ a.2))

instance : IsTotal (String × ℚ) scoreGE := ⟨fun a b => le_total b.2 a.2⟩

instance : IsTrans (String × ℚ) scoreGE := ⟨fun _ _ _ h1 h2 => le_trans h2 h1⟩

/-- Python's `sorted` is a stable sort; insertion sort with `scoreGE` places an
earlier element before any later element of equal score, which matches
CPython's stable descending sort on the dict's insertion order. -/
def sortByScoreDesc (m : ScoreMap) : ScoreMap := List.insertionSort scoreGE m

/-- The weight dict shared by the two hybrid modules:
`{'content': ..., 'collaborative': ..., 'popularity': ...}`. -/
structure Weights where
  content : ℚ
  collaborative : ℚ
  popularity : ℚ
deriving DecidableEq

namespace Hybrid

/-- `src/recommendation/hybrid.py`, `HybridRecommender._calculate_user_weights`
(lines 29-85).  `user_found = false` stands for `_get_user_data` returning `{}`
or the surrounding `except` branch firing; `favorites`, `playlists`,
`reactions` are the lengths of the corresponding retrieved collections. -/
def calculate_user_weights (user_found : Bool) (favorites playlists reactions : ℕ) :
    Weights :=
  if user_found = false then ⟨2/5, 3/10, 3/10⟩
  else if favorites + playlists + reactions = 0 then ⟨2/5, 3/10, 3/10⟩
  else
    let total : ℚ := (favorites : ℚ) + (playlists : ℚ) + (reactions : ℚ)
    let content_weight : ℚ := 2/5 + ((favorites : ℚ) + (playlists : ℚ)) / (2 * total)
    let collab_weight : ℚ := 3/10 + (reactions : ℚ) / total
    ⟨content_weight, collab_weight, 1 - content_weight - collab_weight⟩

/-- `src/recommendation/hybrid.py`, the fusion loops of `get_recommendations`
(lines 98-128): the content loop assigns `{'score': weights['content']}`
(overwriting), the collaborative and popularity loops add the bare strategy
weight when the id is already present and insert it otherwise.  Raw candidate
scores are never read. -/
def combined_scores (content collab pop : List Cand) (w : Weights) : ScoreMap :=
  let m1 := content.foldl (fun m c => setEntry m c.id w.content) []
  let m2 := collab.foldl (fun m c => addEntry m c.id w.collaborative) m1
  pop.foldl (fun m c => addEntry m c.id w.popularity) m2

/-- `src/recommendation/hybrid.py`, `get_recommendations` lines 130-138:
sort the accumulated dict by score descending and truncate to `limit`. -/
def get_recommendations (content collab pop : List Cand) (w : Weights)
    (limit : ℕ) : ScoreMap :=
  (sortByScoreDesc (combined_scores content collab pop w)).take limit

end Hybrid

namespace HybridRec

/-- `src/recommendation/hybrid_recommender.py` lines 20-25: the
`default_weights` dict `{'popularity': 0.3, 'content': 0.3, 'collaborative': 0.4}`. -/
def default_weights : Weights := ⟨3/10, 2/5, 3/10⟩

/-- `src/recommendation/hybrid_recommender.py`,
`HybridRecommender._calculate_user_weights` (lines 36-80); identical to the
`hybrid.py` variant except that the fallback is `default_weights`. -/
def calculate_user_weights (user_found : Bool) (favorites playlists reactions : ℕ) :
    Weights :=
  if user_found = false then default_weights
  else if favorites + playlists + reactions = 0 then default_weights
  else
    let total : ℚ := (favorites : ℚ) + (playlists : ℚ) + (reactions : ℚ)
    let content_weight : ℚ := 2/5 + ((favorites : ℚ) + (playlists : ℚ)) / (2 * total)
    let collab_weight : ℚ := 3/10 + (reactions : ℚ) / total
    ⟨content_weight, collab_weight, 1 - content_weight - collab_weight⟩

/-- `src/recommendation/hybrid_recommender.py`, the fusion loops of
`get_recommendations` (lines 94-124): the popularity loop assigns
`rec['score'] * weights['popularity']` (plain dict assignment), the content and
collaborative loops add `rec['score'] * weights[...]` when the id is present
and insert it otherwise. -/
def combined_scores (pop content collab : List Cand) (w : Weights) : ScoreMap :=
  let m1 := pop.foldl (fun m c => setEntry m c.id (c.score * w.popularity)) []
  let m2 := content.foldl (fun m c => addEntry m c.id (c.score * w.content)) m1
  collab.foldl (fun m c => addEntry m c.id (c.score * w.collaborative)) m2

/-- `src/recommendation/hybrid_recommender.py`, `get_recommendations` lines
126-140: sort descending by combined score, truncate to `limit`; each returned
entry carries its `hybrid_score`. -/
def get_recommendations (pop content collab : List Cand) (w : Weights)
    (limit : ℕ) : ScoreMap :=
  (sortByScoreDesc (combined_scores pop content collab w)).take limit

/-- The explanation dict built by `get_recommendation_explanation`
(`src/recommendation/hybrid_recommender.py` lines 147-171). -/
structure Explanation where
  popularity_score : ℚ
  content_score : ℚ
  collaborative_score : ℚ
  weights : Weights
  hybrid_score : ℚ
deriving DecidableEq

/-- Modelled from the spec: the three `get_song_score` methods
(`popularity_recommender.get_song_score`, `content_recommender.get_song_score`,
`collaborative_recommender.get_song_score`) are called at
`src/recommendation/hybrid_recommender.py` lines 153-155 but defined nowhere
under `src/`; per the spec (§4.4) each recomputes that strategy's score for
the single (user, item) pair, so they enter here as the inputs `pop_score`,
`content_score`, `collab_score`.  The rest is the source arithmetic of
`get_recommendation_explanation` (lines 150-167) modelled exactly. -/
def get_recommendation_explanation (pop_score content_score collab_score : ℚ)
    (w : Weights) : Explanation :=
  { popularity_score := pop_score
    content_score := content_score
    collaborative_score := collab_score
    weights := w
    hybrid_score := pop_score * w.popularity + content_score * w.content
      + collab_score * w.collaborative }

end HybridRec

namespace Service

/-- A record returned by `get_popular_songs` (`src/recommendation_service.py`
lines 422-451): item id plus the `popularity` field; `none` models a dict
without the key (the `'popularity' in rec` test at lines 591 and 598). -/
structure PopRec where
  id : String
  popularity : Option ℚ
deriving DecidableEq

/-- The popularity value used at `src/recommendation_service.py` lines 591 and
598: `rec['popularity'] / 100 if 'popularity' in rec else 0.5`. -/
def pop_contrib : Option ℚ → ℚ
  | some p => p / 100
  | none => 1/2

/-- The `track_scores` accumulation of `hybrid_recommend`
(`src/recommendation_service.py` lines 547-598) with fixed weights
`{'content': 0.4, 'collaborative': 0.3, 'mood': 0.2, 'popularity': 0.1}`.
`content`, `collab` and `mood` are the candidate lists the conditional
branches contribute (empty when the branch is not taken); `pop` is
`get_popular_songs(20)` and `more_pop` is the `get_popular_songs(n*2)` refill
used when fewer than `n` ids were scored. -/
def track_scores (content collab mood : List Cand) (pop more_pop : List PopRec)
    (n : ℕ) : ScoreMap :=
  let m1 := content.foldl (fun m c => addEntry m c.id (2/5 * c.score)) []
  let m2 := collab.foldl (fun m c => addEntry m c.id (3/10 * c.score)) m1
  let m3 := mood.foldl (fun m c => addEntry m c.id (1/5 * c.score)) m2
  let m4 := pop.foldl (fun m r => addEntry m r.id (1/10 * pop_contrib r.popularity)) m3
  if m4.length < n then
    more_pop.foldl
      (fun m r =>
        if (scoreKeys m).contains r.id then m
        else m ++ [(r.id, 1/10 * pop_contrib r.popularity)])
      m4
  else m4

/-- `src/recommendation_service.py` lines 600-607: sort `track_scores`
descending, keep the top `n` (when no ids survive, the function returns `[]`
at line 607 before any store access). -/
def hybrid_recommend (content collab mood : List Cand) (pop more_pop : List PopRec)
    (n : ℕ) : ScoreMap :=
  (sortByScoreDesc (track_scores content collab mood pop more_pop n)).take n

/-- Follows the spec's words (§4.3): "the engine falls back to invoking
PopularityScorer alone" — the popularity contributions of
`get_popular_songs`, scored and ranked with no other strategy present. -/
def popularity_alone (pop more_pop : List PopRec) (n : ℕ) : ScoreMap :=
  let m := pop.foldl (fun m r => addEntry m r.id (1/10 * pop_contrib r.popularity)) []
  let m2 :=
    if m.length < n then
      more_pop.foldl
        (fun m r =>
          if (scoreKeys m).contains r.id then m
          else m ++ [(r.id, 1/10 * pop_contrib r.popularity)])
        m
    else m
  (sortByScoreDesc m2).take n

end Service

/-- A song document as read by
`PopularityRecommender._calculate_popularity_score`
(`src/recommendation/popularity.py` lines 25-81).  `release_log_days` is
`ln(1 + days_since_release)` (the code's `np.log1p(days_old)`), present iff the
song has a `releaseDate`; `comments` holds the per-comment 1-5 sentiment
scores that `SentimentAnalyzer.analyze_sentiment` assigns (the BERT model
itself is opaque, so each comment is embedded as its analyzed score). -/
structure Song where
  viewCount : ℚ
  totalReactionCount : ℚ
  commentCount : ℚ
  release_log_days : Option ℚ
  comments : List ℚ
deriving DecidableEq

namespace Sentiment

/-- The `average_sentiment` field of
`SentimentAnalyzer.analyze_comments` (`src/recommendation/sentiment_analyzer.py`
lines 40-69): 3.0 for an empty list, else the mean of the per-comment scores. -/
def analyze_comments_average (comments : List ℚ) : ℚ :=
  if comments = [] then 3 else comments.sum / (comments.length : ℚ)

end Sentiment

namespace Popularity

/-- `src/recommendation/popularity.py` lines 33-40: logarithmic recency decay,
`1/(1 + log1p(days_old))` when a release date exists, else `0.5`. -/
def time_decay : Option ℚ → ℚ
  | some l => 1 / (1 + l)
  | none => 1/2

/-- `src/recommendation/popularity.py` lines 42-48: neutral `0.5` when the
song has no comments, else the analyzer's 1-5 average rescaled by `(s-1)/4`. -/
def sentiment_score (comments : List ℚ) : ℚ :=
  if comments = [] then 1/2
  else (Sentiment.analyze_comments_average comments - 1) / 4

/-- `src/recommendation/popularity.py` lines 59-66: `min(x / max_x, 1.0)`. -/
def normalized (x maxv : ℚ) : ℚ := min (x / maxv) 1

/-- `PopularityRecommender._calculate_popularity_score`
(`src/recommendation/popularity.py` lines 25-81).  `err = true` models the
`except` branch (line 79-81), which returns `0.0`. -/
def calculate_popularity_score (err : Bool) (s : Song) : ℚ :=
  if err then 0
  else
    3/10 * normalized s.viewCount 10000
      + 1/5 * normalized s.totalReactionCount 1000
      + 1/5 * normalized s.commentCount 500
      + 1/5 * sentiment_score s.comments
      + 1/10 * time_decay s.release_log_days

end Popularity

/-- The shape of a Python return value, to the granularity the sources need:
a list of song ids, or a tuple of such values. -/
inductive PyValue where
  | pylist (items : List String) : PyValue
  | pytuple (items : List PyValue) : PyValue

/-- Whether a Python value is a list. -/
def PyValue.isPyList : PyValue → Bool
  | .pylist _ => true
  | .pytuple _ => false

/-- The value `PopularityRecommender.get_recommendations`
(`src/recommendation/popularity.py` lines 83-108) returns: the ranked id list
on success, and on any error the literal `return [],` of line 108 — a
one-element tuple containing an empty list, produced by the trailing comma. -/
def popularity_get_recommendations_value (err : Bool) (ranked : List String) :
    PyValue :=
  if err then PyValue.pytuple [PyValue.pylist []] else PyValue.pylist ranked

/-- The value `CollaborativeRecommender.get_recommendations`
(`src/recommendation/collaborative.py` lines 132-151) returns: `[]` on error
(line 151), `[]` when the user has no reactions (line 138) or no similar users
(line 143), else the ranked id list. -/
def collaborative_get_recommendations_value (err no_reactions no_similar : Bool)
    (ranked : List String) : PyValue :=
  if err then PyValue.pylist []
  else if no_reactions then PyValue.pylist []
  else if no_similar then PyValue.pylist []
  else PyValue.pylist ranked

/-- A track document as read by `extract_current_mood`
(`src/recommendation_algorithms/mood_based.py` lines 127-167 and the identical
`src/recommendation_service.py` lines 494-526): optional `mood` label and
optional `valence`/`energy` audio features (`track.get(..., 0.5)`). -/
structure Track where
  mood : Option String
  valence : Option ℚ
  energy : Option ℚ
deriving DecidableEq

namespace MoodBased

/-- One step of `mood_counts[track['mood']] += 1` on the insertion-ordered
dict: bump the first entry with this key, else append `(k, 1)`. -/
def incr_mood : List (String × ℕ) → String → List (String × ℕ)
  | [], k => [(k, 1)]
  | e :: m, k => if e.1 = k then (e.1, e.2 + 1) :: m else e :: incr_mood m k

/-- The `mood_counts` dict of `extract_current_mood` (lines 141-144):
tracks without a `mood` field contribute nothing. -/
def mood_counts (tracks : List Track) : List (String × ℕ) :=
  tracks.foldl
    (fun m t => match t.mood with | some k => incr_mood m k | none => m) []

/-- Python's `max(items, key=lambda x: x[1])` over a non-empty dict view:
scan left to right, replacing the current best only on a strictly greater
count, so the first maximal entry wins. -/
def max_by_count (e : String × ℕ) : List (String × ℕ) → String × ℕ
  | [] => e
  | x :: rest => max_by_count (if x.2 > e.2 then x else e) rest

/-- The count dict lookup used in the proofs: the value at the first matching
key, 0 when absent. -/
def cnt : List (String × ℕ) → String → ℕ
  | [], _ => 0
  | e :: m, k => if e.1 = k then e.2 else cnt m k

/-- How many tracks carry the mood label `k`. -/
def count_mood (tracks : List Track) (k : String) : ℕ :=
  (tracks.filter (fun t => t.mood = some k)).length

/-- `extract_current_mood` (`src/recommendation_algorithms/mood_based.py`
lines 127-167): `"neutral"` for no tracks; the most common mood label when any
track carries one; else the fixed 0.4/0.6 thresholds on the average valence
and energy (each defaulting to 0.5 when missing). -/
def extract_current_mood (tracks : List Track) : String :=
  if tracks = [] then "neutral"
  else
    match mood_counts tracks with
    | e :: rest => (max_by_count e rest).1
    | [] =>
      let avg_valence := (tracks.map (fun t => t.valence.getD (1/2))).sum / (tracks.length : ℚ)
      let avg_energy := (tracks.map (fun t => t.energy.getD (1/2))).sum / (tracks.length : ℚ)
      if avg_valence > 3/5 ∧ avg_energy > 3/5 then "happy"
      else if avg_valence > 3/5 ∧ avg_energy ≤ 2/5 then "relaxed"
      else if avg_valence ≤ 2/5 ∧ avg_energy > 3/5 then "intense"
      else if avg_valence ≤ 2/5 ∧ avg_energy ≤ 2/5 then "sad"
      else "neutral"

end MoodBased

example : getScore (addEntry (setEntry [] "a" 2) "a" 3) "a" = some 5 := by
  norm_num [setEntry, addEntry, getScore]

example :
    Hybrid.combined_scores [⟨"a", 1/2⟩] [] [] ⟨3/5, 3/10, 1/10⟩ = [("a", 3/5)] := by
  norm_num [Hybrid.combined_scores, setEntry, addEntry]

example :
    HybridRec.combined_scores [] [⟨"a", 9/10⟩] [⟨"a", 2/5⟩] ⟨3/5, 2/5, 0⟩
      = [("a", 9/10 * (3/5) + 2/5 * (2/5))] := by
  norm_num [HybridRec.combined_scores, setEntry, addEntry]

example :
    HybridRec.get_recommendations [⟨"b", 1⟩, ⟨"a", 1⟩] [] [] ⟨0, 0, 1⟩ 10
      = [("b", 1), ("a", 1)] := by
  norm_num [HybridRec.get_recommendations, HybridRec.combined_scores, setEntry,
    addEntry, sortByScoreDesc, List.insertionSort, List.orderedInsert, scoreGE]

/-! ### Association-list lemmas -/

theorem getScore_setEntry_self (m : ScoreMap) (i : String) (v : ℚ) :
    getScore (setEntry m i v) i = some v := by
  induction m with
  | nil => simp [setEntry, getScore]
  | cons e m ih =>
    by_cases h : e.1 = i <;> simp [setEntry, getScore, h, ih]

theorem getScore_setEntry_ne (m : ScoreMap) (i j : String) (v : ℚ) (h : i ≠ j) :
    getScore (setEntry m i v) j = getScore m j := by
  induction m with
  | nil => simp [setEntry, getScore, h]
  | cons e m ih =>
    by_cases he : e.1 = i
    · have hej : e.1 ≠ j := he ▸ h
      simp [setEntry, getScore, he, h, hej]
    · by_cases hj : e.1 = j <;>
        simp [setEntry, getScore, he, hj, h, Ne.symm h, ih]

theorem getScore_addEntry_self (m : ScoreMap) (i : String) (v : ℚ) :
    getScore (addEntry m i v) i = some ((getScore m i).getD 0 + v) := by
  induction m with
  | nil => simp [addEntry, getScore]
  | cons e m ih =>
    by_cases h : e.1 = i <;> simp [addEntry, getScore, h, ih]

theorem getScore_addEntry_ne (m : ScoreMap) (i j : String) (v : ℚ) (h : i ≠ j) :
    getScore (addEntry m i v) j = getScore m j := by
  induction m with
  | nil => simp [addEntry, getScore, h]
  | cons e m ih =>
    by_cases he : e.1 = i
    · have hej : e.1 ≠ j := he ▸ h
      simp [addEntry, getScore, he, h, hej]
    · by_cases hj : e.1 = j <;>
        simp [addEntry, getScore, he, hj, h, Ne.symm h, ih]

theorem countId_eq_zero_iff (l : List Cand) (i : String) :
    countId l i = 0 ↔ l.filter (fun c => c.id = i) = [] := by
  simp [countId, List.length_eq_zero]

theorem getScore_foldl_addEntry (f : Cand → ℚ) (l : List Cand) (m : ScoreMap)
    (i : String) :
    getScore (l.foldl (fun m c => addEntry m c.id (f c)) m) i =
      if countId l i = 0 then getScore m i
      else some ((getScore m i).getD 0 + ((l.filter (fun c => c.id = i)).map f).sum) := by
  induction l generalizing m with
  | nil => simp [countId]
  | cons c t ih =>
    by_cases hc : c.id = i
    · have hcnt : countId (c :: t) i = countId t i + 1 := by
        simp [countId, List.filter_cons, hc]
      have hne : ¬countId (c :: t) i = 0 := by rw [hcnt]; omega
      have hself : getScore (addEntry m c.id (f c)) i
          = some ((getScore m i).getD 0 + f c) := by
        rw [hc]; exact getScore_addEntry_self m i (f c)
      have hfilter : (c :: t).filter (fun x => x.id = i)
          = c :: t.filter (fun x => x.id = i) := by
        simp [List.filter_cons, hc]
      rw [List.foldl_cons, ih]
      by_cases ht : countId t i = 0
      · have hfe : t.filter (fun x => x.id = i) = [] := (countId_eq_zero_iff t i).mp ht
        rw [if_pos ht, if_neg hne, hself, hfilter, hfe]
        simp
      · rw [if_neg ht, if_neg hne, hself, hfilter]
        simp only [Option.getD_some, List.map_cons, List.sum_cons]
        congr 1
        ring
    · have hcnt : countId (c :: t) i = countId t i := by
        simp [countId, List.filter_cons, hc]
      rw [List.foldl_cons, ih]
      rw [getScore_addEntry_ne m c.id i (f c) hc]
      simp [hcnt, List.filter_cons, hc]

theorem getScore_foldl_setEntry_of_zero (f : Cand → ℚ) (l : List Cand)
    (m : ScoreMap) (i : String) (h : countId l i = 0) :
    getScore (l.foldl (fun m c => setEntry m c.id (f c)) m) i = getScore m i := by
  induction l generalizing m with
  | nil => simp
  | cons c t ih =>
    have hc : ¬(c.id = i) := by
      intro hc
      simp [countId, List.filter_cons, hc] at h
    have ht : countId t i = 0 := by
      simpa [countId, List.filter_cons, hc] using h
    rw [List.foldl_cons, ih _ ht, getScore_setEntry_ne m c.id i (f c) hc]

theorem getScore_foldl_setEntry_of_one (f : Cand → ℚ) (l : List Cand)
    (m : ScoreMap) (i : String) (h : countId l i = 1) :
    getScore (l.foldl (fun m c => setEntry m c.id (f c)) m) i
      = some (((l.filter (fun c => c.id = i)).map f).sum) := by
  induction l generalizing m with
  | nil => simp [countId] at h
  | cons c t ih =>
    by_cases hc : c.id = i
    · have ht : countId t i = 0 := by
        have := h
        simp [countId, List.filter_cons, hc] at this
        simpa [countId] using this
      have hfe : t.filter (fun x => x.id = i) = [] := (countId_eq_zero_iff t i).mp ht
      have hgs : getScore (setEntry m c.id (f c)) i = some (f c) := by
        rw [hc]; exact getScore_setEntry_self m i (f c)
      rw [List.foldl_cons, getScore_foldl_setEntry_of_zero f t _ i ht, hgs]
      simp [List.filter_cons, hc, hfe]
    · have ht : countId t i = 1 := by
        simpa [countId, List.filter_cons, hc] using h
      rw [List.foldl_cons, ih _ ht]
      simp [List.filter_cons, hc]

theorem mem_scoreKeys_setEntry (m : ScoreMap) (i : String) (v : ℚ) (j : String) :
    j ∈ scoreKeys (setEntry m i v) ↔ j ∈ scoreKeys m ∨ j = i := by
  induction m with
  | nil => simp [setEntry, scoreKeys]
  | cons e m ih =>
    by_cases he : e.1 = i
    · rw [show setEntry (e :: m) i v = (i, v) :: m from by simp [setEntry, he]]
      simp only [scoreKeys, List.map_cons, List.mem_cons, he]
      tauto
    · simp only [setEntry, if_neg he, scoreKeys, List.map_cons, List.mem_cons]
      constructor
      · rintro (h | h)
        · exact Or.inl (Or.inl h)
        · rcases ih.mp h with hm | hi
          · exact Or.inl (Or.inr hm)
          · exact Or.inr hi
      · rintro ((h | h) | h)
        · exact Or.inl h
        · exact Or.inr (ih.mpr (Or.inl h))
        · exact Or.inr (ih.mpr (Or.inr h))

theorem mem_scoreKeys_addEntry (m : ScoreMap) (i : String) (v : ℚ) (j : String) :
    j ∈ scoreKeys (addEntry m i v) ↔ j ∈ scoreKeys m ∨ j = i := by
  induction m with
  | nil => simp [addEntry, scoreKeys]
  | cons e m ih =>
    by_cases he : e.1 = i
    · rw [show addEntry (e :: m) i v = (e.1, e.2 + v) :: m from by simp [addEntry, he]]
      simp only [scoreKeys, List.map_cons, List.mem_cons, he]
      tauto
    · simp only [addEntry, if_neg he, scoreKeys, List.map_cons, List.mem_cons]
      constructor
      · rintro (h | h)
        · exact Or.inl (Or.inl h)
        · rcases ih.mp h with hm | hi
          · exact Or.inl (Or.inr hm)
          · exact Or.inr hi
      · rintro ((h | h) | h)
        · exact Or.inl h
        · exact Or.inr (ih.mpr (Or.inl h))
        · exact Or.inr (ih.mpr (Or.inr h))

theorem nodup_scoreKeys_setEntry (m : ScoreMap) (i : String) (v : ℚ)
    (h : (scoreKeys m).Nodup) : (scoreKeys (setEntry m i v)).Nodup := by
  induction m with
  | nil => simp [setEntry, scoreKeys]
  | cons e m ih =>
    simp only [scoreKeys, List.map_cons, List.nodup_cons] at h
    by_cases he : e.1 = i
    · rw [show setEntry (e :: m) i v = (i, v) :: m from by simp [setEntry, he]]
      simp only [scoreKeys, List.map_cons, List.nodup_cons]
      exact ⟨he ▸ h.1, h.2⟩
    · simp only [setEntry, if_neg he, scoreKeys, List.map_cons, List.nodup_cons]
      refine ⟨?_, ih h.2⟩
      intro hmem
      rcases (mem_scoreKeys_setEntry m i v e.1).mp hmem with hm | hi
      · exact h.1 hm
      · exact he hi

theorem nodup_scoreKeys_addEntry (m : ScoreMap) (i : String) (v : ℚ)
    (h : (scoreKeys m).Nodup) : (scoreKeys (addEntry m i v)).Nodup := by
  induction m with
  | nil => simp [addEntry, scoreKeys]
  | cons e m ih =>
    simp only [scoreKeys, List.map_cons, List.nodup_cons] at h
    by_cases he : e.1 = i
    · rw [show addEntry (e :: m) i v = (e.1, e.2 + v) :: m from by simp [addEntry, he]]
      simp only [scoreKeys, List.map_cons, List.nodup_cons]
      exact h
    · simp only [addEntry, if_neg he, scoreKeys, List.map_cons, List.nodup_cons]
      refine ⟨?_, ih h.2⟩
      intro hmem
      rcases (mem_scoreKeys_addEntry m i v e.1).mp hmem with hm | hi
      · exact h.1 hm
      · exact he hi

theorem nodup_scoreKeys_foldl_setEntry (f : Cand → ℚ) (l : List Cand)
    (m : ScoreMap) (h : (scoreKeys m).Nodup) :
    (scoreKeys (l.foldl (fun m c => setEntry m c.id (f c)) m)).Nodup := by
  induction l generalizing m with
  | nil => exact h
  | cons c t ih => exact ih _ (nodup_scoreKeys_setEntry m c.id (f c) h)

theorem nodup_scoreKeys_foldl_addEntry (f : Cand → ℚ) (l : List Cand)
    (m : ScoreMap) (h : (scoreKeys m).Nodup) :
    (scoreKeys (l.foldl (fun m c => addEntry m c.id (f c)) m)).Nodup := by
  induction l generalizing m with
  | nil => exact h
  | cons c t ih => exact ih _ (nodup_scoreKeys_addEntry m c.id (f c) h)

theorem sortByScoreDesc_perm (m : ScoreMap) : List.Perm (sortByScoreDesc m) m :=
  List.perm_insertionSort scoreGE m

theorem sortByScoreDesc_sorted (m : ScoreMap) :
    (sortByScoreDesc m).Pairwise scoreGE :=
  List.sorted_insertionSort scoreGE m

theorem sum_filter_map_mul (l : List Cand) (i : String) (w : ℚ) :
    ((l.filter (fun c => c.id = i)).map (fun c => c.score * w)).sum
      = sumId l i * w := by
  rw [sumId]
  exact List.sum_map_mul_right (l.filter (fun c => c.id = i)) Cand.score w

/-! ### Claim C1 -/

/-- C1, counterexample: in `hybrid.py` the fused score of an item is NOT
`weight[strategy] × rawScore` — the raw score is ignored.  A content candidate
with raw score 1/2 under content weight 3/5 receives fused score 3/5, not
3/5 × 1/2. -/
theorem c1_counterexample :
    getScore (Hybrid.combined_scores [⟨"a", 1/2⟩] [] [] ⟨3/5, 3/10, 1/10⟩) "a"
      = some (3/5)
    ∧ (3/5 : ℚ) ≠ 3/5 * (1/2) := by
  constructor
  · norm_num [Hybrid.combined_scores, setEntry, getScore]
  · norm_num

/-- C1, amended: in `hybrid_recommender.py` the fused score is the additive
weighted sum of raw scores: a candidate appearing with raw score `a` under
content and `b` under collaborative (and absent from popularity) receives
fused score `a·w_content + b·w_collaborative`; the `hybrid.py` variant instead
accumulates the bare strategy weights, ignoring raw scores. -/
theorem c1_fused_score_weighted_additive (pop content collab : List Cand)
    (w : Weights) (i : String) (a b : ℚ)
    (hp : countId pop i = 0)
    (hc1 : countId content i = 1) (ha : sumId content i = a)
    (hl1 : countId collab i = 1) (hb : sumId collab i = b) :
    getScore (HybridRec.combined_scores pop content collab w) i
      = some (a * w.content + b * w.collaborative) := by
  have e1 : HybridRec.combined_scores pop content collab w
      = collab.foldl (fun m c => addEntry m c.id (c.score * w.collaborative))
          (content.foldl (fun m c => addEntry m c.id (c.score * w.content))
            (pop.foldl (fun m c => setEntry m c.id (c.score * w.popularity)) [])) := rfl
  rw [e1]
  rw [getScore_foldl_addEntry (fun c => c.score * w.collaborative) collab _ i]
  rw [if_neg (by simp [hl1])]
  rw [getScore_foldl_addEntry (fun c => c.score * w.content) content _ i]
  rw [if_neg (by simp [hc1])]
  rw [getScore_foldl_setEntry_of_zero (fun c => c.score * w.popularity) pop [] i hp]
  rw [sum_filter_map_mul, sum_filter_map_mul, ha, hb]
  simp [getScore]

/-- C1, witness: the spec's own scenario shape — scores 9/10 and 2/5 under
weights 3/5 and 2/5. -/
theorem c1_witness :
    getScore
        (HybridRec.combined_scores [] [⟨"a", 9/10⟩] [⟨"a", 2/5⟩] ⟨3/5, 2/5, 0⟩) "a"
      = some (9/10 * (3/5) + 2/5 * (2/5)) :=
  c1_fused_score_weighted_additive [] [⟨"a", 9/10⟩] [⟨"a", 2/5⟩] ⟨3/5, 2/5, 0⟩
    "a" (9/10) (2/5)
    (by simp [countId]) (by simp [countId]) (by simp [sumId])
    (by simp [countId]) (by simp [sumId])

/-! ### Claim C4 -/

/-- C4: the explanation built for a (user, item) pair reports a `hybrid_score`
equal to the fused score `get_recommendations` assigns the item given the same
weight vector and the same per-strategy scores (the item scored once by each
strategy with the per-pair scores). -/
theorem c4_explanation_matches_fusion (pop content collab : List Cand)
    (w : Weights) (i : String) (sp sc scol : ℚ)
    (hp : countId pop i = 1) (hps : sumId pop i = sp)
    (hc : countId content i = 1) (hcs : sumId content i = sc)
    (hl : countId collab i = 1) (hls : sumId collab i = scol) :
    getScore (HybridRec.combined_scores pop content collab w) i
      = some ((HybridRec.get_recommendation_explanation sp sc scol w).hybrid_score) := by
  have e1 : HybridRec.combined_scores pop content collab w
      = collab.foldl (fun m c => addEntry m c.id (c.score * w.collaborative))
          (content.foldl (fun m c => addEntry m c.id (c.score * w.content))
            (pop.foldl (fun m c => setEntry m c.id (c.score * w.popularity)) [])) := rfl
  rw [e1]
  rw [getScore_foldl_addEntry (fun c => c.score * w.collaborative) collab _ i]
  rw [if_neg (by simp [hl])]
  rw [getScore_foldl_addEntry (fun c => c.score * w.content) content _ i]
  rw [if_neg (by simp [hc])]
  rw [getScore_foldl_setEntry_of_one (fun c => c.score * w.popularity) pop [] i hp]
  rw [sum_filter_map_mul, sum_filter_map_mul, sum_filter_map_mul, hps, hcs, hls]
  simp only [HybridRec.get_recommendation_explanation, Option.getD_some, Option.some.injEq]

/-- C4, witness: per-pair scores 1/2, 3/4, 1/4 under weights 2/5, 2/5, 1/5. -/
theorem c4_witness :
    getScore
        (HybridRec.combined_scores [⟨"s", 1/2⟩] [⟨"s", 3/4⟩] [⟨"s", 1/4⟩]
          ⟨2/5, 2/5, 1/5⟩) "s"
      = some ((HybridRec.get_recommendation_explanation (1/2) (3/4) (1/4)
          ⟨2/5, 2/5, 1/5⟩).hybrid_score) :=
  c4_explanation_matches_fusion [⟨"s", 1/2⟩] [⟨"s", 3/4⟩] [⟨"s", 1/4⟩]
    ⟨2/5, 2/5, 1/5⟩ "s" (1/2) (3/4) (1/4)
    (by simp [countId]) (by simp [sumId])
    (by simp [countId]) (by simp [sumId])
    (by simp [countId]) (by simp [sumId])

/-! ### Claim C5 -/

/-- C5, counterexample: two popularity candidates with equal fused score come
out in dict insertion order ("b" before "a"), not ascending item id — Python's
stable sort keeps first-insertion order on ties, so the claimed tie-break by
ascending id fails. -/
theorem c5_counterexample :
    HybridRec.get_recommendations [⟨"b", 1⟩, ⟨"a", 1⟩] [] [] ⟨0, 0, 1⟩ 10
      = [("b", 1), ("a", 1)]
    ∧ ¬ ([(("b" : String), (1 : ℚ)), ("a", 1)].Pairwise
          (fun x y => y.2 < x.2 ∨ (x.2 = y.2 ∧ x.1 < y.1))) := by
  constructor
  · norm_num [HybridRec.get_recommendations, HybridRec.combined_scores, setEntry,
      addEntry, sortByScoreDesc, List.insertionSort, List.orderedInsert, scoreGE]
  · intro h
    have hab := List.rel_of_pairwise_cons h (List.mem_singleton.mpr rfl)
    rcases hab with hlt | ⟨_, hid⟩
    · exact absurd hlt (lt_irrefl 1)
    · rw [String.lt_iff_toList_lt] at hid
      exact absurd hid (by decide)

/-- C5, amended: the final list of `hybrid_recommender.py` contains each item
id at most once and is sorted by fused score in descending order; ties keep
the dict's first-insertion order (popularity, then content, then
collaborative first appearance), not ascending item id. -/
theorem c5_dedup_and_sorted_desc (pop content collab : List Cand) (w : Weights)
    (limit : ℕ) :
    (scoreKeys (HybridRec.get_recommendations pop content collab w limit)).Nodup
    ∧ (HybridRec.get_recommendations pop content collab w limit).Pairwise
        (fun x y => y.2 ≤ x.2) := by
  have hnd : (scoreKeys (HybridRec.combined_scores pop content collab w)).Nodup :=
    nodup_scoreKeys_foldl_addEntry (fun c => c.score * w.collaborative) collab _
      (nodup_scoreKeys_foldl_addEntry (fun c => c.score * w.content) content _
        (nodup_scoreKeys_foldl_setEntry (fun c => c.score * w.popularity) pop []
          (by simp [scoreKeys])))
  constructor
  · have hperm : List.Perm
        (scoreKeys (sortByScoreDesc (HybridRec.combined_scores pop content collab w)))
        (scoreKeys (HybridRec.combined_scores pop content collab w)) :=
      (sortByScoreDesc_perm _).map Prod.fst
    have hnd2 : (scoreKeys
        (sortByScoreDesc (HybridRec.combined_scores pop content collab w))).Nodup :=
      hperm.nodup_iff.mpr hnd
    have he : scoreKeys (HybridRec.get_recommendations pop content collab w limit)
        = (scoreKeys
            (sortByScoreDesc (HybridRec.combined_scores pop content collab w))).take
            limit := by
      simp [HybridRec.get_recommendations, scoreKeys, List.map_take]
    rw [he]
    exact List.Nodup.sublist (List.take_sublist _ _) hnd2
  · have hs : (sortByScoreDesc (HybridRec.combined_scores pop content collab w)).Pairwise
        scoreGE := sortByScoreDesc_sorted _
    exact List.Pairwise.sublist (List.take_sublist _ _) hs

/-! ### Claim C2 -/

/-- C2, counterexample: a valid profile (favorites 10, playlists 5,
reactions 0) yields a popularity weight of −1/5 < 0 — the vector is neither
clamped to ≥ 0 nor renormalized. -/
theorem c2_counterexample :
    (Hybrid.calculate_user_weights true 10 5 0).popularity < 0 := by
  norm_num [Hybrid.calculate_user_weights]

/-- C2, amended: the weight components always sum to exactly 1, but whenever
total activity is positive the popularity component equals
`−1/5 − reactions/(2·total)` and is strictly negative: no clamping and no
renormalization happen, so the all-components-≥ 0 part of the claim fails for
every profile with positive activity. -/
theorem c2_weights_sum_one_popularity_negative (user_found : Bool) (f p r : ℕ) :
    (Hybrid.calculate_user_weights user_found f p r).content
        + (Hybrid.calculate_user_weights user_found f p r).collaborative
        + (Hybrid.calculate_user_weights user_found f p r).popularity = 1
    ∧ (user_found = true → f + p + r ≠ 0 →
        (Hybrid.calculate_user_weights user_found f p r).popularity
            = -(1/5) - (r : ℚ) / (2 * ((f : ℚ) + (p : ℚ) + (r : ℚ)))
          ∧ (Hybrid.calculate_user_weights user_found f p r).popularity < 0) := by
  cases user_found with
  | false =>
    refine ⟨by norm_num [Hybrid.calculate_user_weights], ?_⟩
    intro h
    exact absurd h (by simp)
  | true =>
    by_cases h0 : f + p + r = 0
    · refine ⟨by norm_num [Hybrid.calculate_user_weights, h0], ?_⟩
      intro _ hne
      exact absurd h0 hne
    · have hpos : (0:ℕ) < f + p + r := Nat.pos_of_ne_zero h0
      have hQ : (0:ℚ) < (f : ℚ) + (p : ℚ) + (r : ℚ) := by exact_mod_cast hpos
      have hQne : ((f : ℚ) + (p : ℚ) + (r : ℚ)) ≠ 0 := ne_of_gt hQ
      have hcont : (Hybrid.calculate_user_weights true f p r).content
          = 2/5 + ((f : ℚ) + (p : ℚ)) / (2 * ((f : ℚ) + (p : ℚ) + (r : ℚ))) := by
        simp [Hybrid.calculate_user_weights, h0]
      have hcoll : (Hybrid.calculate_user_weights true f p r).collaborative
          = 3/10 + (r : ℚ) / ((f : ℚ) + (p : ℚ) + (r : ℚ)) := by
        simp [Hybrid.calculate_user_weights, h0]
      have hpop0 : (Hybrid.calculate_user_weights true f p r).popularity
          = 1 - (2/5 + ((f : ℚ) + (p : ℚ)) / (2 * ((f : ℚ) + (p : ℚ) + (r : ℚ))))
            - (3/10 + (r : ℚ) / ((f : ℚ) + (p : ℚ) + (r : ℚ))) := by
        simp [Hybrid.calculate_user_weights, h0]
      have hpop : (Hybrid.calculate_user_weights true f p r).popularity
          = -(1/5) - (r : ℚ) / (2 * ((f : ℚ) + (p : ℚ) + (r : ℚ))) := by
        rw [hpop0]
        field_simp
        ring
      refine ⟨?_, fun _ _ => ⟨hpop, ?_⟩⟩
      · rw [hcont, hcoll, hpop]
        field_simp
        ring
      · rw [hpop]
        have hdiv : (0:ℚ) ≤ (r : ℚ) / (2 * ((f : ℚ) + (p : ℚ) + (r : ℚ))) := by positivity
        linarith

/-- C2, witness: the spec's own scenario profile (10 favorites, 5 playlists,
0 reactions). -/
theorem c2_witness :
    (Hybrid.calculate_user_weights true 10 5 0).content
        + (Hybrid.calculate_user_weights true 10 5 0).collaborative
        + (Hybrid.calculate_user_weights true 10 5 0).popularity = 1
    ∧ ((Hybrid.calculate_user_weights true 10 5 0).popularity
          = -(1/5) - ((0 : ℕ) : ℚ) / (2 * (((10 : ℕ) : ℚ) + ((5 : ℕ) : ℚ) + ((0 : ℕ) : ℚ)))
        ∧ (Hybrid.calculate_user_weights true 10 5 0).popularity < 0) := by
  have h := c2_weights_sum_one_popularity_negative true 10 5 0
  exact ⟨h.1, h.2 rfl (by norm_num)⟩

/-! ### Claim C7 -/

/-- C7, counterexample: `hybrid_recommender.py`'s zero-activity/unfetchable
default is `{'popularity': 0.3, 'content': 0.3, 'collaborative': 0.4}`, not
the claimed content 0.4 / collaborative 0.3. -/
theorem c7_counterexample :
    (HybridRec.calculate_user_weights false 0 0 0).content = 3/10
    ∧ (HybridRec.calculate_user_weights false 0 0 0).collaborative = 2/5
    ∧ (3/10 : ℚ) ≠ 2/5 := by
  refine ⟨?_, ?_, by norm_num⟩ <;>
    norm_num [HybridRec.calculate_user_weights, HybridRec.default_weights]

/-- C7, amended: on zero total activity or an unfetchable profile,
`hybrid.py`'s calculator returns content 0.4, collaborative 0.3,
popularity 0.3 (as claimed), while `hybrid_recommender.py`'s returns its
`default_weights` content 0.3, collaborative 0.4, popularity 0.3; neither
vector carries a mood component. -/
theorem c7_default_weight_vectors (f p r : ℕ) :
    Hybrid.calculate_user_weights false f p r = ⟨2/5, 3/10, 3/10⟩
    ∧ HybridRec.calculate_user_weights false f p r = ⟨3/10, 2/5, 3/10⟩
    ∧ (f + p + r = 0 →
        Hybrid.calculate_user_weights true f p r = ⟨2/5, 3/10, 3/10⟩
        ∧ HybridRec.calculate_user_weights true f p r = ⟨3/10, 2/5, 3/10⟩) := by
  refine ⟨by simp [Hybrid.calculate_user_weights],
    by simp [HybridRec.calculate_user_weights, HybridRec.default_weights], ?_⟩
  intro h0
  constructor <;>
    simp [Hybrid.calculate_user_weights, HybridRec.calculate_user_weights,
      HybridRec.default_weights, h0]

/-- C7, witness: a user with zero activity everywhere. -/
theorem c7_witness :
    Hybrid.calculate_user_weights true 0 0 0 = ⟨2/5, 3/10, 3/10⟩
    ∧ HybridRec.calculate_user_weights true 0 0 0 = ⟨3/10, 2/5, 3/10⟩ :=
  (c7_default_weight_vectors 0 0 0).2.2 rfl

/-! ### Claim C6 -/

/-- C6: on the error path `PopularityRecommender.get_recommendations` returns
`([],)` — a one-element tuple, not a value of list type (the trailing comma at
`popularity.py` line 108) — while `CollaborativeRecommender.get_recommendations`
returns a list on its error and cold-start paths. -/
theorem c6_popularity_error_returns_tuple :
    (popularity_get_recommendations_value true []).isPyList = false
    ∧ (collaborative_get_recommendations_value true false false []).isPyList = true
    ∧ (collaborative_get_recommendations_value false true false []).isPyList = true :=
  ⟨rfl, rfl, rfl⟩

/-! ### Claim C3 -/

/-- C3: when the content, collaborative and mood strategies contribute zero
candidates, `hybrid_recommend` produces exactly the PopularityScorer-alone
ranking; when popularity also yields nothing, the result is the empty list (a
normal value, not an exception); likewise `hybrid.py` returns `[]` when all
its strategies are empty. -/
theorem c3_empty_strategies_fallback (pop more_pop : List Service.PopRec) (n : ℕ) :
    Service.hybrid_recommend [] [] [] pop more_pop n
        = Service.popularity_alone pop more_pop n
    ∧ (pop = [] → more_pop = [] →
        Service.hybrid_recommend [] [] [] pop more_pop n = [])
    ∧ (∀ (w : Weights) (limit : ℕ), Hybrid.get_recommendations [] [] [] w limit = []) := by
  refine ⟨rfl, ?_, ?_⟩
  · intro hp hm
    subst hp
    subst hm
    simp [Service.hybrid_recommend, Service.track_scores, sortByScoreDesc,
      List.insertionSort]
  · intro w limit
    simp [Hybrid.get_recommendations, Hybrid.combined_scores, sortByScoreDesc,
      List.insertionSort]

/-- C3, witness: everything empty, requested size 3. -/
theorem c3_witness : Service.hybrid_recommend [] [] [] [] [] 3 = [] :=
  (c3_empty_strategies_fallback [] [] 3).2.1 rfl rfl

/-! ### Claim C8 -/

/-- C8: the popularity score is
`0.3·normViews + 0.2·normReactions + 0.2·normComments + 0.2·sentiment +
0.1·decay` with `decay = 1/(1 + ln(1 + days_since_release))` (embedded via
`release_log_days = ln(1 + days)`), decay 0.5 when the release date is
missing, and neutral sentiment `(3−1)/4 = 0.5` when there are no comments. -/
theorem c8_popularity_score_formula (s : Song) :
    Popularity.calculate_popularity_score false s
      = 3/10 * min (s.viewCount / 10000) 1
        + 1/5 * min (s.totalReactionCount / 1000) 1
        + 1/5 * min (s.commentCount / 500) 1
        + 1/5 * (if s.comments = [] then (3 - 1) / 4
            else (s.comments.sum / (s.comments.length : ℚ) - 1) / 4)
        + 1/10 * (match s.release_log_days with
            | some l => 1 / (1 + l)
            | none => 1/2) := by
  rcases hrel : s.release_log_days with _ | l <;> by_cases hc : s.comments = [] <;>
    simp [Popularity.calculate_popularity_score, Popularity.normalized,
      Popularity.sentiment_score, Sentiment.analyze_comments_average,
      Popularity.time_decay, hc, hrel] <;> norm_num

/-! ### Claim C10 -/

theorem list_avg_mem_Icc (l : List ℚ) (hl : l ≠ []) (a b : ℚ)
    (h : ∀ x ∈ l, a ≤ x ∧ x ≤ b) :
    a ≤ l.sum / (l.length : ℚ) ∧ l.sum / (l.length : ℚ) ≤ b := by
  have hlen : 0 < (l.length : ℚ) := by
    have := List.length_pos.mpr hl
    exact_mod_cast this
  have hlow : (l.length : ℚ) * a ≤ l.sum := by
    have := List.card_nsmul_le_sum l a (fun x hx => (h x hx).1)
    simpa [nsmul_eq_mul] using this
  have hhigh : l.sum ≤ (l.length : ℚ) * b := by
    have := List.sum_le_card_nsmul l b (fun x hx => (h x hx).2)
    simpa [nsmul_eq_mul] using this
  constructor
  · rw [le_div_iff₀ hlen, mul_comm]
    exact hlow
  · rw [div_le_iff₀ hlen, mul_comm]
    exact hhigh

theorem normalized_bounds (x m : ℚ) (hx : 0 ≤ x) (hm : 0 < m) :
    0 ≤ Popularity.normalized x m ∧ Popularity.normalized x m ≤ 1 := by
  unfold Popularity.normalized
  constructor
  · apply le_min
    · positivity
    · norm_num
  · exact min_le_right _ _

theorem time_decay_bounds (o : Option ℚ) (h : ∀ l, o = some l → 0 ≤ l) :
    0 ≤ Popularity.time_decay o ∧ Popularity.time_decay o ≤ 1 := by
  cases o with
  | none => norm_num [Popularity.time_decay]
  | some l =>
    have hl := h l rfl
    simp only [Popularity.time_decay]
    constructor
    · positivity
    · rw [div_le_one (by linarith)]
      linarith

theorem sentiment_score_bounds (cs : List ℚ) (h : ∀ x ∈ cs, 1 ≤ x ∧ x ≤ 5) :
    0 ≤ Popularity.sentiment_score cs ∧ Popularity.sentiment_score cs ≤ 1 := by
  by_cases hc : cs = []
  · norm_num [Popularity.sentiment_score, hc]
  · have havg := list_avg_mem_Icc cs hc 1 5 h
    simp only [Popularity.sentiment_score, Sentiment.analyze_comments_average,
      if_neg hc]
    constructor
    · linarith [havg.1]
    · linarith [havg.2]

/-- C10: for a song with non-negative engagement counts, a non-future release
date (`release_log_days = ln(1+days) ≥ 0`) and per-comment sentiment scores on
the 1-5 scale, the popularity score lies in [0, 1]; the error branch returns
exactly 0. -/
theorem c10_popularity_score_bounds (s : Song)
    (hv : 0 ≤ s.viewCount) (hr : 0 ≤ s.totalReactionCount)
    (hc : 0 ≤ s.commentCount)
    (hrel : ∀ l, s.release_log_days = some l → 0 ≤ l)
    (hsent : ∀ x ∈ s.comments, 1 ≤ x ∧ x ≤ 5) :
    (0 ≤ Popularity.calculate_popularity_score false s
      ∧ Popularity.calculate_popularity_score false s ≤ 1)
    ∧ Popularity.calculate_popularity_score true s = 0 := by
  refine ⟨?_, rfl⟩
  have h1 := normalized_bounds s.viewCount 10000 hv (by norm_num)
  have h2 := normalized_bounds s.totalReactionCount 1000 hr (by norm_num)
  have h3 := normalized_bounds s.commentCount 500 hc (by norm_num)
  have h4 := sentiment_score_bounds s.comments hsent
  have h5 := time_decay_bounds s.release_log_days hrel
  have e : Popularity.calculate_popularity_score false s
      = 3/10 * Popularity.normalized s.viewCount 10000
        + 1/5 * Popularity.normalized s.totalReactionCount 1000
        + 1/5 * Popularity.normalized s.commentCount 500
        + 1/5 * Popularity.sentiment_score s.comments
        + 1/10 * Popularity.time_decay s.release_log_days := by
    simp [Popularity.calculate_popularity_score]
  constructor
  · rw [e]
    linarith [h1.1, h2.1, h3.1, h4.1, h5.1]
  · rw [e]
    linarith [h1.2, h2.2, h3.2, h4.2, h5.2]

/-- C10, witness: a song with all counts zero, no release date and no
comments. -/
theorem c10_witness :
    ((0 ≤ Popularity.calculate_popularity_score false ⟨0, 0, 0, none, []⟩
      ∧ Popularity.calculate_popularity_score false ⟨0, 0, 0, none, []⟩ ≤ 1)
    ∧ Popularity.calculate_popularity_score true ⟨0, 0, 0, none, []⟩ = 0) :=
  c10_popularity_score_bounds ⟨0, 0, 0, none, []⟩ (le_refl 0) (le_refl 0)
    (le_refl 0) (fun l h => nomatch h) (by simp)

/-! ### Claim C9 -/

theorem cnt_incr_mood (m : List (String × ℕ)) (k j : String) :
    MoodBased.cnt (MoodBased.incr_mood m k) j
      = MoodBased.cnt m j + (if k = j then 1 else 0) := by
  induction m with
  | nil => by_cases h : k = j <;> simp [MoodBased.incr_mood, MoodBased.cnt, h]
  | cons e m ih =>
    by_cases he : e.1 = k
    · by_cases hj : e.1 = j
      · have hkj : k = j := he.symm.trans hj
        rw [show MoodBased.incr_mood (e :: m) k = (e.1, e.2 + 1) :: m from by
          simp [MoodBased.incr_mood, he]]
        simp [MoodBased.cnt, hj, hkj]
      · have hkj : ¬k = j := fun h => hj (he.trans h)
        rw [show MoodBased.incr_mood (e :: m) k = (e.1, e.2 + 1) :: m from by
          simp [MoodBased.incr_mood, he]]
        simp [MoodBased.cnt, hj, hkj]
    · rw [show MoodBased.incr_mood (e :: m) k = e :: MoodBased.incr_mood m k from by
        simp [MoodBased.incr_mood, he]]
      by_cases hj : e.1 = j
      · have hkj : ¬k = j := fun hh => he (hj.trans hh.symm)
        simp [MoodBased.cnt, hj, hkj]
      · simp [MoodBased.cnt, hj, ih]

theorem cnt_mood_counts_aux (ts : List Track) (acc : List (String × ℕ)) (j : String) :
    MoodBased.cnt
        (ts.foldl
          (fun m t => match t.mood with
            | some k => MoodBased.incr_mood m k
            | none => m) acc) j
      = MoodBased.cnt acc j + MoodBased.count_mood ts j := by
  induction ts generalizing acc with
  | nil => simp [MoodBased.count_mood]
  | cons t ts ih =>
    rcases hm : t.mood with _ | k
    · rw [List.foldl_cons]
      simp only [hm]
      rw [ih]
      simp [MoodBased.count_mood, List.filter_cons, hm]
    · rw [List.foldl_cons]
      simp only [hm]
      rw [ih, cnt_incr_mood]
      by_cases hkj : k = j
      · simp only [MoodBased.count_mood, List.filter_cons, hm, hkj]
        simp
        omega
      · simp only [MoodBased.count_mood, List.filter_cons, hm]
        have : ¬(some k = some j) := by simp [hkj]
        simp [hkj, this, MoodBased.count_mood]

theorem cnt_mood_counts (ts : List Track) (j : String) :
    MoodBased.cnt (MoodBased.mood_counts ts) j = MoodBased.count_mood ts j := by
  have h := cnt_mood_counts_aux ts [] j
  simpa [MoodBased.mood_counts, MoodBased.cnt] using h

theorem mem_keys_incr_mood (m : List (String × ℕ)) (k j : String) :
    j ∈ (MoodBased.incr_mood m k).map Prod.fst ↔ j ∈ m.map Prod.fst ∨ j = k := by
  induction m with
  | nil => simp [MoodBased.incr_mood]
  | cons e m ih =>
    by_cases he : e.1 = k
    · rw [show MoodBased.incr_mood (e :: m) k = (e.1, e.2 + 1) :: m from by
        simp [MoodBased.incr_mood, he]]
      simp only [List.map_cons, List.mem_cons, he]
      tauto
    · rw [show MoodBased.incr_mood (e :: m) k = e :: MoodBased.incr_mood m k from by
        simp [MoodBased.incr_mood, he]]
      simp only [List.map_cons, List.mem_cons, ih]
      tauto

theorem nodup_keys_incr_mood (m : List (String × ℕ)) (k : String)
    (h : (m.map Prod.fst).Nodup) : ((MoodBased.incr_mood m k).map Prod.fst).Nodup := by
  induction m with
  | nil => simp [MoodBased.incr_mood]
  | cons e m ih =>
    rw [List.map_cons, List.nodup_cons] at h
    by_cases he : e.1 = k
    · rw [show MoodBased.incr_mood (e :: m) k = (e.1, e.2 + 1) :: m from by
        simp [MoodBased.incr_mood, he]]
      rw [List.map_cons, List.nodup_cons]
      exact h
    · rw [show MoodBased.incr_mood (e :: m) k = e :: MoodBased.incr_mood m k from by
        simp [MoodBased.incr_mood, he]]
      rw [List.map_cons, List.nodup_cons]
      refine ⟨?_, ih h.2⟩
      intro hmem
      rcases (mem_keys_incr_mood m k e.1).mp hmem with hm | hk
      · exact h.1 hm
      · exact he hk

theorem nodup_keys_mood_counts_aux (ts : List Track) (acc : List (String × ℕ))
    (h : (acc.map Prod.fst).Nodup) :
    ((ts.foldl
        (fun m t => match t.mood with
          | some k => MoodBased.incr_mood m k
          | none => m) acc).map Prod.fst).Nodup := by
  induction ts generalizing acc with
  | nil => exact h
  | cons t ts ih =>
    rcases hm : t.mood with _ | k
    · rw [List.foldl_cons]
      simp only [hm]
      exact ih acc h
    · rw [List.foldl_cons]
      simp only [hm]
      exact ih _ (nodup_keys_incr_mood acc k h)

theorem nodup_keys_mood_counts (ts : List Track) :
    ((MoodBased.mood_counts ts).map Prod.fst).Nodup :=
  nodup_keys_mood_counts_aux ts [] (by simp)

theorem cnt_eq_val_of_mem (m : List (String × ℕ)) (h : (m.map Prod.fst).Nodup)
    (e : String × ℕ) (he : e ∈ m) : MoodBased.cnt m e.1 = e.2 := by
  induction m with
  | nil => simp at he
  | cons x m ih =>
    rw [List.map_cons, List.nodup_cons] at h
    rcases List.mem_cons.mp he with rfl | hm
    · simp [MoodBased.cnt]
    · have hne : ¬x.1 = e.1 := by
        intro hx
        exact h.1 (hx ▸ List.mem_map_of_mem Prod.fst hm)
      simp [MoodBased.cnt, hne, ih h.2 hm]

theorem cnt_eq_zero_of_not_mem (m : List (String × ℕ)) (j : String)
    (h : j ∉ m.map Prod.fst) : MoodBased.cnt m j = 0 := by
  induction m with
  | nil => simp [MoodBased.cnt]
  | cons e m ih =>
    rw [List.map_cons] at h
    have h1 : ¬e.1 = j := fun he => h (he ▸ List.mem_cons_self _ _)
    simp [MoodBased.cnt, h1, ih (fun hm => h (List.mem_cons_of_mem _ hm))]

theorem max_by_count_eq_or_mem (e : String × ℕ) (l : List (String × ℕ)) :
    MoodBased.max_by_count e l = e ∨ MoodBased.max_by_count e l ∈ l := by
  induction l generalizing e with
  | nil => exact Or.inl rfl
  | cons x rest ih =>
    simp only [MoodBased.max_by_count]
    by_cases hx : x.2 > e.2
    · rw [if_pos hx]
      rcases ih x with h | h
      · refine Or.inr ?_
        rw [h]
        exact List.mem_cons_self _ _
      · exact Or.inr (List.mem_cons_of_mem _ h)
    · rw [if_neg hx]
      rcases ih e with h | h
      · exact Or.inl h
      · exact Or.inr (List.mem_cons_of_mem _ h)

theorem max_by_count_ge (e : String × ℕ) (l : List (String × ℕ)) :
    e.2 ≤ (MoodBased.max_by_count e l).2
    ∧ ∀ x ∈ l, x.2 ≤ (MoodBased.max_by_count e l).2 := by
  induction l generalizing e with
  | nil => exact ⟨le_refl _, by simp⟩
  | cons x rest ih =>
    simp only [MoodBased.max_by_count]
    by_cases hx : x.2 > e.2
    · rw [if_pos hx]
      have h := ih x
      refine ⟨le_trans (le_of_lt hx) h.1, ?_⟩
      intro y hy
      rcases List.mem_cons.mp hy with rfl | hm
      · exact h.1
      · exact h.2 y hm
    · rw [if_neg hx]
      have h := ih e
      refine ⟨h.1, ?_⟩
      intro y hy
      rcases List.mem_cons.mp hy with rfl | hm
      · exact le_trans (le_of_not_lt hx) h.1
      · exact h.2 y hm

theorem vals_pos_incr_mood (m : List (String × ℕ)) (k : String)
    (h : ∀ x ∈ m, 1 ≤ x.2) : ∀ x ∈ MoodBased.incr_mood m k, 1 ≤ x.2 := by
  induction m with
  | nil =>
    intro x hx
    simp [MoodBased.incr_mood] at hx
    simp [hx]
  | cons e m ih =>
    intro x hx
    by_cases he : e.1 = k
    · rw [show MoodBased.incr_mood (e :: m) k = (e.1, e.2 + 1) :: m from by
        simp [MoodBased.incr_mood, he]] at hx
      rcases List.mem_cons.mp hx with rfl | hm
      · simp
      · exact h x (List.mem_cons_of_mem _ hm)
    · rw [show MoodBased.incr_mood (e :: m) k = e :: MoodBased.incr_mood m k from by
        simp [MoodBased.incr_mood, he]] at hx
      rcases List.mem_cons.mp hx with rfl | hm
      · exact h _ (List.mem_cons_self _ _)
      · exact ih (fun y hy => h y (List.mem_cons_of_mem _ hy)) x hm

theorem vals_pos_mood_counts_aux (ts : List Track) (acc : List (String × ℕ))
    (h : ∀ x ∈ acc, 1 ≤ x.2) :
    ∀ x ∈ ts.foldl
        (fun m t => match t.mood with
          | some k => MoodBased.incr_mood m k
          | none => m) acc, 1 ≤ x.2 := by
  induction ts generalizing acc with
  | nil => exact h
  | cons t ts ih =>
    rcases hm : t.mood with _ | k
    · rw [List.foldl_cons]
      simp only [hm]
      exact ih acc h
    · rw [List.foldl_cons]
      simp only [hm]
      exact ih _ (vals_pos_incr_mood acc k h)

theorem vals_pos_mood_counts (ts : List Track) :
    ∀ x ∈ MoodBased.mood_counts ts, 1 ≤ x.2 :=
  vals_pos_mood_counts_aux ts [] (by simp)

theorem mood_counts_eq_nil_of_all_none (ts : List Track)
    (h : ∀ t ∈ ts, t.mood = none) : MoodBased.mood_counts ts = [] := by
  induction ts with
  | nil => rfl
  | cons t ts ih =>
    have ht := h t (List.mem_cons_self _ _)
    simp only [MoodBased.mood_counts, List.foldl_cons, ht]
    exact ih (fun x hx => h x (List.mem_cons_of_mem _ hx))

theorem incr_mood_ne_nil (m : List (String × ℕ)) (k : String) :
    MoodBased.incr_mood m k ≠ [] := by
  cases m with
  | nil => simp [MoodBased.incr_mood]
  | cons e m => by_cases he : e.1 = k <;> simp [MoodBased.incr_mood, he]

theorem mood_counts_ne_nil_aux (ts : List Track) (acc : List (String × ℕ))
    (h : acc ≠ [] ∨ ∃ t ∈ ts, (t.mood).isSome) :
    ts.foldl
        (fun m t => match t.mood with
          | some k => MoodBased.incr_mood m k
          | none => m) acc ≠ [] := by
  induction ts generalizing acc with
  | nil =>
    rcases h with h | ⟨t, ht, _⟩
    · simpa using h
    · simp at ht
  | cons t ts ih =>
    rcases hm : t.mood with _ | k
    · rw [List.foldl_cons]
      simp only [hm]
      apply ih
      rcases h with h | ⟨u, hu, hus⟩
      · exact Or.inl h
      · rcases List.mem_cons.mp hu with rfl | hmem
        · rw [hm] at hus
          simp at hus
        · exact Or.inr ⟨u, hmem, hus⟩
    · rw [List.foldl_cons]
      simp only [hm]
      apply ih
      exact Or.inl (incr_mood_ne_nil acc k)

theorem mood_counts_ne_nil (ts : List Track) (h : ∃ t ∈ ts, (t.mood).isSome) :
    MoodBased.mood_counts ts ≠ [] :=
  mood_counts_ne_nil_aux ts [] (Or.inr h)

/-- C9: for a non-empty track list, mood inference returns a plurality mood
label whenever at least one track carries a mood field (the returned label
occurs in the tracks and no label occurs more often); otherwise it maps the
average valence and average energy (each missing value defaulting to 0.5)
through the fixed 0.4/0.6 thresholds into happy / relaxed / intense / sad /
neutral. -/
theorem c9_extract_current_mood (tracks : List Track) (hne : tracks ≠ []) :
    ((∃ t ∈ tracks, (t.mood).isSome) →
        0 < MoodBased.count_mood tracks (MoodBased.extract_current_mood tracks)
        ∧ ∀ k, MoodBased.count_mood tracks k
            ≤ MoodBased.count_mood tracks (MoodBased.extract_current_mood tracks))
    ∧ ((∀ t ∈ tracks, t.mood = none) →
        MoodBased.extract_current_mood tracks =
          (let avg_valence :=
            (tracks.map (fun t => t.valence.getD (1/2))).sum / (tracks.length : ℚ)
           let avg_energy :=
            (tracks.map (fun t => t.energy.getD (1/2))).sum / (tracks.length : ℚ)
           if avg_valence > 3/5 ∧ avg_energy > 3/5 then "happy"
           else if avg_valence > 3/5 ∧ avg_energy ≤ 2/5 then "relaxed"
           else if avg_valence ≤ 2/5 ∧ avg_energy > 3/5 then "intense"
           else if avg_valence ≤ 2/5 ∧ avg_energy ≤ 2/5 then "sad"
           else "neutral")) := by
  constructor
  · intro hsome
    have hcne := mood_counts_ne_nil tracks hsome
    obtain ⟨e, rest, hmc⟩ : ∃ e rest, MoodBased.mood_counts tracks = e :: rest := by
      rcases h : MoodBased.mood_counts tracks with _ | ⟨e, rest⟩
      · exact absurd h hcne
      · exact ⟨e, rest, rfl⟩
    have hext : MoodBased.extract_current_mood tracks
        = (MoodBased.max_by_count e rest).1 := by
      unfold MoodBased.extract_current_mood
      rw [if_neg hne, hmc]
    have hmem : MoodBased.max_by_count e rest ∈ MoodBased.mood_counts tracks := by
      rw [hmc]
      rcases max_by_count_eq_or_mem e rest with h | h
      · rw [h]
        exact List.mem_cons_self _ _
      · exact List.mem_cons_of_mem _ h
    have hnd := nodup_keys_mood_counts tracks
    have hcnteq := cnt_eq_val_of_mem _ hnd _ hmem
    have hcount : MoodBased.count_mood tracks (MoodBased.max_by_count e rest).1
        = (MoodBased.max_by_count e rest).2 := by
      rw [← cnt_mood_counts]
      exact hcnteq
    have hpos : 1 ≤ (MoodBased.max_by_count e rest).2 :=
      vals_pos_mood_counts tracks _ hmem
    refine ⟨?_, ?_⟩
    · rw [hext, hcount]
      omega
    · intro k
      rw [hext, hcount, ← cnt_mood_counts tracks k]
      by_cases hk : k ∈ (MoodBased.mood_counts tracks).map Prod.fst
      · rcases List.mem_map.mp hk with ⟨x, hxmem, hxk⟩
        have hx := cnt_eq_val_of_mem _ hnd x hxmem
        rw [← hxk, hx]
        rw [hmc] at hxmem
        rcases List.mem_cons.mp hxmem with rfl | hxr
        · exact (max_by_count_ge _ _).1
        · exact (max_by_count_ge e rest).2 x hxr
      · rw [cnt_eq_zero_of_not_mem _ _ hk]
        exact Nat.zero_le _
  · intro hall
    have hmc := mood_counts_eq_nil_of_all_none tracks hall
    unfold MoodBased.extract_current_mood
    rw [if_neg hne, hmc]

/-- C9, witness: two "happy" tracks and one "sad" one — the plurality label
has positive count and at least the count of "sad". -/
theorem c9_witness :
    0 < MoodBased.count_mood
        [⟨some "happy", none, none⟩, ⟨some "happy", none, none⟩,
          ⟨some "sad", none, none⟩]
        (MoodBased.extract_current_mood
          [⟨some "happy", none, none⟩, ⟨some "happy", none, none⟩,
            ⟨some "sad", none, none⟩])
    ∧ MoodBased.count_mood
        [⟨some "happy", none, none⟩, ⟨some "happy", none, none⟩,
          ⟨some "sad", none, none⟩] "sad"
      ≤ MoodBased.count_mood
          [⟨some "happy", none, none⟩, ⟨some "happy", none, none⟩,
            ⟨some "sad", none, none⟩]
          (MoodBased.extract_current_mood
            [⟨some "happy", none, none⟩, ⟨some "happy", none, none⟩,
              ⟨some "sad", none, none⟩]) := by
  have h := (c9_extract_current_mood
    [⟨some "happy", none, none⟩, ⟨some "happy", none, none⟩,
      ⟨some "sad", none, none⟩] (by simp)).1
    ⟨⟨some "happy", none, none⟩, by simp, rfl⟩
  exact ⟨h.1, h.2 "sad"⟩
